import Mathlib

/-!
Verification of the spatial-division intersection kernel of
MayaIntersectionMarker (src/src/kernel/OctreeKernel.cpp) and of the result
assembly in src/src/intersectionMarkerDrawOverride.cpp.

Embedding conventions:
* Machine doubles are modelled as exact rationals (`ℚ`); every comparison the
  code performs on doubles is a comparison of rationals.  The one place the
  code takes a square root (`MVector::length` in `splitNode`) is only ever
  used in `<` comparisons of two lengths, and `√a < √b ↔ a < b` on
  nonnegative reals, so the embedding compares squared lengths instead.
* Maya library types (`MPoint`, `MBoundingBox`, `MMatrix` behaviour) are
  external to the repository; they are given their documented meaning here
  (componentwise closed boxes, `center = (min+max)/2`, box-box intersection
  is closed overlap on all three axes).
* The C++ tree mutates nodes in place; the embedding passes octree values
  explicitly.  An `OctreeNode` either has no children or all 8, which is the
  data model's invariant ("0 or 8 child nodes, never a partial fan-out"):
  the only code that creates children, `splitNode`, always creates all 8.
* The recursive C++ functions recurse on child pointers; the embedding gives
  each such function a structural `gas` argument.  A top-level wrapper
  supplies enough gas, and for each function an `unfold` theorem re-states
  the exact source-shaped recursion equation, showing the gas is invisible.
-/

/-- A Maya `MPoint`/`MVector`: three doubles, modelled as exact rationals. -/
structure Point where
  x : ℚ
  y : ℚ
  z : ℚ
deriving DecidableEq, Repr

instance : Inhabited Point := ⟨⟨0, 0, 0⟩⟩

def Point.add (a b : Point) : Point := ⟨a.x + b.x, a.y + b.y, a.z + b.z⟩

def Point.sub (a b : Point) : Point := ⟨a.x - b.x, a.y - b.y, a.z - b.z⟩

instance : Add Point := ⟨Point.add⟩

instance : Sub Point := ⟨Point.sub⟩

/-- Componentwise division by a scalar (`MPoint / double`, `* 0.5` etc.). -/
def Point.divQ (p : Point) (q : ℚ) : Point := ⟨p.x / q, p.y / q, p.z / q⟩

/-- Scalar multiplication (`MVector * double`). -/
def Point.smulQ (q : ℚ) (p : Point) : Point := ⟨q * p.x, q * p.y, q * p.z⟩

/-- Dot product of two vectors. -/
def Point.dot (a b : Point) : ℚ := a.x * b.x + a.y * b.y + a.z * b.z

/-- Cross product of two vectors. -/
def Point.cross (a b : Point) : Point :=
  ⟨a.y * b.z - a.z * b.y, a.z * b.x - a.x * b.z, a.x * b.y - a.y * b.x⟩

/-- Squared Euclidean distance.  The source compares
`(boxes[i].center() - baryCenter).length()` values with `<`; comparing
squared lengths is equivalent and exact over `ℚ`. -/
def Point.dist2 (a b : Point) : ℚ := Point.dot (a - b) (a - b)

/-- A Maya `MBoundingBox`: an axis-aligned box given by two corner points. -/
structure MBoundingBox where
  minP : Point
  maxP : Point
deriving DecidableEq, Repr

instance : Inhabited MBoundingBox := ⟨⟨default, default⟩⟩

/-- The `MBoundingBox(corner1, corner2)` constructor: the box containing the
two given points (componentwise min/max). -/
def MBoundingBox.ofCorners (a b : Point) : MBoundingBox :=
  ⟨⟨min a.x b.x, min a.y b.y, min a.z b.z⟩, ⟨max a.x b.x, max a.y b.y, max a.z b.z⟩⟩

/-- Maya `MBoundingBox::center()`: `(min + max) * 0.5`. -/
def MBoundingBox.center (b : MBoundingBox) : Point := (b.minP + b.maxP).divQ 2

/-- Maya `MBoundingBox::intersects(other)`: the closed boxes overlap on every
axis (touching counts as intersecting). -/
def MBoundingBox.intersects (a b : MBoundingBox) : Bool :=
  decide ((a.minP.x ≤ b.maxP.x ∧ b.minP.x ≤ a.maxP.x) ∧
          (a.minP.y ≤ b.maxP.y ∧ b.minP.y ≤ a.maxP.y) ∧
          (a.minP.z ≤ b.maxP.z ∧ b.minP.z ≤ a.maxP.z))

/-- Maya `MBoundingBox::contains(point)`: the point lies inside or on the
closed box. -/
def MBoundingBox.containsPt (b : MBoundingBox) (p : Point) : Bool :=
  decide ((b.minP.x ≤ p.x ∧ p.x ≤ b.maxP.x) ∧
          (b.minP.y ≤ p.y ∧ p.y ≤ b.maxP.y) ∧
          (b.minP.z ≤ p.z ∧ p.z ≤ b.maxP.z))

/-- `TriangleData`: one triangle of a mesh's triangle soup (face id,
sub-triangle index, three world-space vertices, the polygon normal). -/
structure TriangleData where
  faceId : Int
  triangleIndex : Int
  v0 : Point
  v1 : Point
  v2 : Point
  normal : Point
deriving DecidableEq, Repr

/-- Modelled from the spec: `AABB.contains_any_vertex(tri)` — true if any of
`tri.v0, v1, v2` lies inside or on the AABB (the `boxContainsAnyVertices`
utility is declared outside the provided sources). -/
def boxContainsAnyVertices (b : MBoundingBox) (t : TriangleData) : Bool :=
  b.containsPt t.v0 || b.containsPt t.v1 || b.containsPt t.v2

/-- Modelled from the spec: `AABB.contains_all_vertices(tri)` — true iff all
three vertices lie inside or on the AABB (the `boxContainsAllVertices`
utility is declared outside the provided sources). -/
def boxContainsAllVertices (b : MBoundingBox) (t : TriangleData) : Bool :=
  b.containsPt t.v0 && b.containsPt t.v1 && b.containsPt t.v2

/-- An octree node (`OctreeNode` in OctreeKernel.h): a bounding box, the
triangles lodged at the node, and either no children or exactly 8.  The C++
node holds 8 nullable child pointers; the only writer (`splitNode`) always
fills all 8, so the tree invariant "0 or 8 children" is built into the
type. -/
inductive OctreeNode : Type where
  | leaf (boundingBox : MBoundingBox) (triangles : List TriangleData) : OctreeNode
  | node (boundingBox : MBoundingBox) (triangles : List TriangleData)
      (c0 c1 c2 c3 c4 c5 c6 c7 : OctreeNode) : OctreeNode
deriving DecidableEq, Repr

def OctreeNode.boundingBox : OctreeNode → MBoundingBox
  | .leaf bb _ => bb
  | .node bb _ _ _ _ _ _ _ _ _ => bb

def OctreeNode.triangles : OctreeNode → List TriangleData
  | .leaf _ ts => ts
  | .node _ ts _ _ _ _ _ _ _ _ => ts

/-- The node's child list: empty for a leaf, the 8 children in slot order
otherwise. -/
def OctreeNode.children : OctreeNode → List OctreeNode
  | .leaf _ _ => []
  | .node _ _ a b c d e f g h => [a, b, c, d, e, f, g, h]

/-- Modelled from the spec: `OctreeNode::isLeaf()` (declared in the header,
which is outside the provided sources) — "A node is a leaf iff all 8 child
slots are empty." -/
def OctreeNode.isLeaf : OctreeNode → Bool
  | .leaf _ _ => true
  | .node _ _ _ _ _ _ _ _ _ _ => false

instance : Inhabited OctreeNode := ⟨.leaf default []⟩

/-- `node->triangles.push_back(triangle)`. -/
def appendTriangle : OctreeNode → TriangleData → OctreeNode
  | .leaf bb ts, t => .leaf bb (ts ++ [t])
  | .node bb ts a b c d e f g h, t => .node bb (ts ++ [t]) a b c d e f g h

/-- A count of nodes in the tree; used only to hand the recursive traversals
enough gas. -/
def treeSize : OctreeNode → Nat
  | .leaf _ _ => 1
  | .node _ _ a b c d e f g h =>
      1 + treeSize a + treeSize b + treeSize c + treeSize d +
        treeSize e + treeSize f + treeSize g + treeSize h

/-- `int MAX_TRIANGLES_PER_NODE = 10;` (OctreeKernel.cpp line 59). -/
def MAX_TRIANGLES_PER_NODE : Nat := 10

/-- `int MAX_DEPTH = 32;` (OctreeKernel.cpp line 60). -/
def MAX_DEPTH : Nat := 32

/-- The 8 octant boxes `boxes[0] .. boxes[7]` computed by
`OctreeKernel::splitNode` (lines 107-115), in the source's order. -/
def octantBoxes (bb : MBoundingBox) : List MBoundingBox :=
  [MBoundingBox.ofCorners bb.minP bb.center,
   MBoundingBox.ofCorners ⟨bb.center.x, bb.minP.y, bb.minP.z⟩ ⟨bb.maxP.x, bb.center.y, bb.center.z⟩,
   MBoundingBox.ofCorners ⟨bb.center.x, bb.minP.y, bb.center.z⟩ ⟨bb.maxP.x, bb.center.y, bb.maxP.z⟩,
   MBoundingBox.ofCorners ⟨bb.minP.x, bb.minP.y, bb.center.z⟩ ⟨bb.center.x, bb.center.y, bb.maxP.z⟩,
   MBoundingBox.ofCorners ⟨bb.minP.x, bb.center.y, bb.minP.z⟩ ⟨bb.center.x, bb.maxP.y, bb.center.z⟩,
   MBoundingBox.ofCorners ⟨bb.center.x, bb.center.y, bb.minP.z⟩ ⟨bb.maxP.x, bb.maxP.y, bb.center.z⟩,
   MBoundingBox.ofCorners bb.center bb.maxP,
   MBoundingBox.ofCorners ⟨bb.minP.x, bb.center.y, bb.center.z⟩ ⟨bb.center.x, bb.maxP.y, bb.maxP.z⟩]

/-- The triangle's barycentre computed in `splitNode`:
`(v[0] + v[1] + v[2]) / 3.0`. -/
def baryCenter (t : TriangleData) : Point := (t.v0 + t.v1 + t.v2).divQ 3

/-- The `nearestChild` scan of `splitNode` (lines 143-151): start at child 0,
and for each later index replace the current best only on a strictly smaller
distance, so the lowest index wins ties.  (The loop starts at `i = 1`; the
fold below also visits `i = 0`, where the strict comparison with itself is
false, leaving the accumulator unchanged.) -/
def nearestChildIdx (boxes : List MBoundingBox) (p : Point) : Nat :=
  (List.range boxes.length).foldl
    (fun best i =>
      if Point.dist2 ((boxes.getD i default).center) p <
          Point.dist2 ((boxes.getD best default).center) p then i else best)
    0

/-- The `for (i = 0; i < 8; ++i) { if (contains) { push; break; } }` scan of
`splitNode` (lines 126-132): the index of the first box satisfying `p`,
counting from `s`. -/
def firstIdxFrom (p : MBoundingBox → Bool) : List MBoundingBox → Nat → Option Nat
  | [], _ => none
  | b :: rest, s => if p b then some s else firstIdxFrom p rest (s + 1)

/-- Which child of `splitNode` receives a triangle (lines 124-153): the first
child whose box contains all three vertices, else the child whose box centre
is nearest the barycentre. -/
def assignChild (boxes : List MBoundingBox) (t : TriangleData) : Nat :=
  match firstIdxFrom (fun b => boxContainsAllVertices b t) boxes 0 with
  | some i => i
  | none => nearestChildIdx boxes (baryCenter t)

/-- One iteration of the triangle-moving loop of `splitNode`: push `t` onto
the triangle list of the child `assignChild` picks. -/
def distStep (boxes : List MBoundingBox) (acc : List (List TriangleData))
    (t : TriangleData) : List (List TriangleData) :=
  let i := assignChild boxes t
  acc.set i (acc.getD i [] ++ [t])

/-- The triangle-moving loop of `splitNode` (lines 124-154), over the 8
initially empty child triangle lists. -/
def distributeTriangles (boxes : List MBoundingBox) (ts : List TriangleData) :
    List (List TriangleData) :=
  ts.foldl (distStep boxes) (List.replicate 8 [])

/-- `OctreeKernel::splitNode` (lines 99-158): subdivide the node's box into
the 8 octants, create 8 fresh leaf children, move every triangle to exactly
one child, and clear the node's own list. -/
def splitNode (n : OctreeNode) : OctreeNode :=
  let boxes := octantBoxes n.boundingBox
  let dist := distributeTriangles boxes n.triangles
  OctreeNode.node n.boundingBox []
    (.leaf (boxes.getD 0 default) (dist.getD 0 []))
    (.leaf (boxes.getD 1 default) (dist.getD 1 []))
    (.leaf (boxes.getD 2 default) (dist.getD 2 []))
    (.leaf (boxes.getD 3 default) (dist.getD 3 []))
    (.leaf (boxes.getD 4 default) (dist.getD 4 []))
    (.leaf (boxes.getD 5 default) (dist.getD 5 []))
    (.leaf (boxes.getD 6 default) (dist.getD 6 []))
    (.leaf (boxes.getD 7 default) (dist.getD 7 []))

/-- `OctreeKernel::insertTriangle` (lines 62-96), with a structural gas
argument.  The gas only bounds the recursion depth: the wrapper
`insertTriangle` passes `MAX_DEPTH + 2 - depth`, and every recursive call is
at `depth + 1`, so gas 0 is reached only with `depth > MAX_DEPTH`, where the
gas-0 behaviour below coincides with the source's depth-overflow branch
(`insertTriangle_unfold` proves the source-shaped equation). -/
def insertTriangleAux : Nat → OctreeNode → TriangleData → Nat → OctreeNode
  | 0, n, t, _ => appendTriangle n t
  | g + 1, n, t, depth =>
    if MAX_DEPTH < depth then appendTriangle n t
    else
      match n with
      | .leaf bb ts =>
          if ts.length < MAX_TRIANGLES_PER_NODE then .leaf bb (ts ++ [t])
          else insertTriangleAux g (splitNode (.leaf bb ts)) t (depth + 1)
      | .node bb ts a b c d e f g7 h =>
          let ins : OctreeNode → OctreeNode := fun ch =>
            if boxContainsAnyVertices ch.boundingBox t then
              insertTriangleAux g ch t (depth + 1)
            else ch
          if [a, b, c, d, e, f, g7, h].any
              (fun ch => boxContainsAnyVertices ch.boundingBox t) then
            .node bb ts (ins a) (ins b) (ins c) (ins d) (ins e) (ins f) (ins g7) (ins h)
          else .node bb (ts ++ [t]) a b c d e f g7 h

/-- `OctreeKernel::insertTriangle(node, triangle, depth)`. -/
def insertTriangle (n : OctreeNode) (t : TriangleData) (depth : Nat) : OctreeNode :=
  insertTriangleAux (MAX_DEPTH + 2 - depth) n t depth

/-- Signed volume orientation: `((b-a) × (c-a)) · (d-a)`.  Positive when `d`
lies on the positive side of plane `abc`. -/
def orient3 (a b c d : Point) : ℚ := Point.dot (Point.cross (b - a) (c - a)) (d - a)

/-- Planar orientation of `r` against segment `p→q`, for points lying in a
common plane of normal `n`. -/
def orientInPlane (n p q r : Point) : ℚ := Point.dot n (Point.cross (q - p) (r - p))

/-- Point-in-triangle for a point in the triangle's plane (normal `n`): `p`
is on or inside all three edges, with a consistent sign. -/
def pointInTriCoplanar (n a b c p : Point) : Bool :=
  let s1 := orientInPlane n a b p
  let s2 := orientInPlane n b c p
  let s3 := orientInPlane n c a p
  decide ((0 ≤ s1 ∧ 0 ≤ s2 ∧ 0 ≤ s3) ∨ (s1 ≤ 0 ∧ s2 ≤ 0 ∧ s3 ≤ 0))

/-- Closed 1-D overlap of segments `[p,q]` and `[u,v]` projected on
direction `d` (the collinear sub-case of coplanar segment crossing). -/
def overlap1D (d p q u v : Point) : Bool :=
  decide (max (min (Point.dot d p) (Point.dot d q)) (min (Point.dot d u) (Point.dot d v)) ≤
          min (max (Point.dot d p) (Point.dot d q)) (max (Point.dot d u) (Point.dot d v)))

/-- Closed segment-segment intersection for segments in a common plane of
normal `n`: opposite (or zero) orientations both ways, with the all-collinear
case decided by 1-D interval overlap. -/
def segSegCoplanar (n p q u v : Point) : Bool :=
  let o1 := orientInPlane n p q u
  let o2 := orientInPlane n p q v
  let o3 := orientInPlane n u v p
  let o4 := orientInPlane n u v q
  if o1 = 0 ∧ o2 = 0 ∧ o3 = 0 ∧ o4 = 0 then overlap1D (q - p) p q u v
  else
    decide (((o1 ≤ 0 ∧ 0 ≤ o2) ∨ (o2 ≤ 0 ∧ 0 ≤ o1)) ∧
            ((o3 ≤ 0 ∧ 0 ≤ o4) ∨ (o4 ≤ 0 ∧ 0 ≤ o3)))

/-- Closed segment `[p,q]` versus closed triangle `abc`: if the segment lies
in the triangle's plane, a 2-D test (an endpoint inside, or the segment
crossing an edge); otherwise the segment must straddle or touch the plane and
the line through it must pass the three edge-orientation tests with one
consistent sign. -/
def segTri (p q a b c : Point) : Bool :=
  let dp := orient3 a b c p
  let dq := orient3 a b c q
  if dp = 0 ∧ dq = 0 then
    let n := Point.cross (b - a) (c - a)
    pointInTriCoplanar n a b c p || pointInTriCoplanar n a b c q ||
      segSegCoplanar n p q a b || segSegCoplanar n p q b c || segSegCoplanar n p q c a
  else if (0 < dp ∧ 0 < dq) ∨ (dp < 0 ∧ dq < 0) then false
  else
    let s1 := orient3 p q a b
    let s2 := orient3 p q b c
    let s3 := orient3 p q c a
    decide ((0 ≤ s1 ∧ 0 ≤ s2 ∧ 0 ≤ s3) ∨ (s1 ≤ 0 ∧ s2 ≤ 0 ∧ s3 ≤ 0))

/-- Some edge of `t1` meets the closed triangle of `t2`. -/
def anyEdgeMeetsTri (t1 t2 : TriangleData) : Bool :=
  segTri t1.v0 t1.v1 t2.v0 t2.v1 t2.v2 ||
  segTri t1.v1 t1.v2 t2.v0 t2.v1 t2.v2 ||
  segTri t1.v2 t1.v0 t2.v0 t2.v1 t2.v2

/-- Modelled from the spec: the robust triangle-triangle overlap predicate
(`intersectTriangleTriangle`, declared outside the provided sources) — "true
iff the two closed triangles share at least one point", with the coplanar
case handled.  Two closed triangles share a point iff some edge of one meets
the closed region of the other, so the model tests the three edges each way;
the formulation is symmetric by construction, as the mathematical
characterisation demands. -/
def intersectTriangleTriangle (t1 t2 : TriangleData) : Bool :=
  anyEdgeMeetsTri t1 t2 || anyEdgeMeetsTri t2 t1

/-- `intersectOctreeNodesRecursive` (OctreeKernel.cpp lines 214-248) with a
structural gas argument; gas 0 is never reached when the wrapper supplies
`treeSize a + treeSize b` (`intersectOctreeNodesRecursive_unfold` proves the
source-shaped equation). -/
def intersectOctreeNodesRecursiveAux :
    Nat → OctreeNode → OctreeNode → List (OctreeNode × OctreeNode)
  | 0, _, _ => []
  | g + 1, nodeA, nodeB =>
    if nodeA.boundingBox.intersects nodeB.boundingBox then
      if nodeA.isLeaf && nodeB.isLeaf then [(nodeA, nodeB)]
      else if nodeA.isLeaf then
        nodeB.children.flatMap (fun c => intersectOctreeNodesRecursiveAux g nodeA c)
      else if nodeB.isLeaf then
        nodeA.children.flatMap (fun c => intersectOctreeNodesRecursiveAux g c nodeB)
      else
        nodeA.children.flatMap (fun ca =>
          nodeB.children.flatMap (fun cb => intersectOctreeNodesRecursiveAux g ca cb))
    else []

/-- The dual-tree traversal: the list of candidate node pairs pushed onto
`intersectedNodes`. -/
def intersectOctreeNodesRecursive (a b : OctreeNode) : List (OctreeNode × OctreeNode) :=
  intersectOctreeNodesRecursiveAux (treeSize a + treeSize b) a b

/-- An `OctreeKernel`: its octree root (built by `OctreeKernel::build`). -/
structure OctreeKernel where
  root : OctreeNode

/-- A `SpatialDivisionKernel` passed to `intersectKernelKernel`: either an
octree kernel (the `dynamic_cast<OctreeKernel*>` succeeds) or some other
kernel variant (the cast yields null). -/
inductive SpatialDivisionKernel : Type where
  | octree (k : OctreeKernel) : SpatialDivisionKernel
  | nonOctree : SpatialDivisionKernel

/-- The inner loops of `intersectKernelKernel` (lines 271-280) for one
candidate pair: if both nodes are leaves, every triangle of `nodeA` is tested
against every triangle of `nodeB`, and each predicate hit pushes `(triA,
triB)` — one entry onto each result vector, in the same position. -/
def leafPairHits (nodeA nodeB : OctreeNode) : List (TriangleData × TriangleData) :=
  if nodeA.isLeaf && nodeB.isLeaf then
    nodeA.triangles.flatMap (fun tA =>
      nodeB.triangles.filterMap (fun tB =>
        if intersectTriangleTriangle tA tB then some (tA, tB) else none))
  else []

/-- `OctreeKernel::intersectKernelKernel` (lines 251-284): empty pair when
the other kernel is not an octree; otherwise run the dual-tree traversal and
collect the two hit vectors (their entries are pushed pairwise, so they are
the two projections of the hit-pair list). -/
def intersectKernelKernel (self : OctreeKernel) (otherKernel : SpatialDivisionKernel) :
    List TriangleData × List TriangleData :=
  match otherKernel with
  | .nonOctree => ([], [])
  | .octree other =>
    let intersectedNodes := intersectOctreeNodesRecursive self.root other.root
    let hits := intersectedNodes.flatMap (fun p => leafPairHits p.1 p.2)
    (hits.map Prod.fst, hits.map Prod.snd)

/-- Modelled from the spec: the driver's result assembly ("Collapse returned
triangle sequences to face-id sets"; the node code holding the two
`unordered_set<int>` collections is outside the provided sources).  A set of
face ids is modelled as a deduplicated list. -/
def faceIdSets (self : OctreeKernel) (otherKernel : SpatialDivisionKernel) :
    List Int × List Int :=
  let r := intersectKernelKernel self otherKernel
  ((r.1.map TriangleData.faceId).dedup, (r.2.map TriangleData.faceId).dedup)

/-- The mesh data `IntersectionMarkerDrawOverride::addIntersectedVertices`
reads through `MFnMesh` (an external Maya interface): polygon count, per-face
triangle counts, the flattened triangle-vertex index array, vertex positions,
and per-polygon normals. -/
structure MeshData where
  numPolygons : Nat
  triangleCounts : List Nat
  triangleVertices : List Nat
  vertexPositions : List Point
  polygonNormal : Nat → Point

/-- `IntersectionMarkerData::FaceData`: the vertex buffer built for one
intersected face. -/
structure FaceData where
  vertices : List Point

/-- A Maya `MMatrix` as it acts on points (`MPoint * MMatrix`); only that
action matters to the embedded code. -/
def MMatrix : Type := Point → Point

/-- The offset-calculation loop of `addIntersectedVertices` (lines 181-187):
`polygonTriangleOffsets[p]` is the running sum of `triangleCounts[q] * 3`
over `q < p`. -/
def polygonTriangleOffsets : List Nat → Nat → List Nat
  | [], _ => []
  | c :: rest, acc => acc :: polygonTriangleOffsets rest (acc + c * 3)

/-- The per-face body of `addIntersectedVertices` (lines 196-218): for each
sub-triangle of the face, fetch its three vertex ids, transform the three
positions by the offset matrix, and append them displaced by
`normal * 0.001`. -/
def faceDataFor (mesh : MeshData) (offsetMatrix : MMatrix) (faceId : Nat) : FaceData :=
  let numTris := mesh.triangleCounts.getD faceId 0
  let off := (polygonTriangleOffsets mesh.triangleCounts 0).getD faceId 0
  let normal := mesh.polygonNormal faceId
  ⟨(List.range numTris).flatMap (fun j =>
    let p0 := offsetMatrix (mesh.vertexPositions.getD (mesh.triangleVertices.getD (off + j * 3 + 0) 0) default)
    let p1 := offsetMatrix (mesh.vertexPositions.getD (mesh.triangleVertices.getD (off + j * 3 + 1) 0) default)
    let p2 := offsetMatrix (mesh.vertexPositions.getD (mesh.triangleVertices.getD (off + j * 3 + 2) 0) default)
    [p0 + Point.smulQ (1 / 1000) normal,
     p1 + Point.smulQ (1 / 1000) normal,
     p2 + Point.smulQ (1 / 1000) normal])⟩

/-- `IntersectionMarkerDrawOverride::addIntersectedVertices` (lines 156-222):
walk the intersected face ids; an id outside `[0, numPolygons)` records a
diagnostic ("Face ID out of bounds: ...") and is skipped with `continue`;
every in-range id appends its face data to `data->faces`.  The returned pair
is (the face list, the recorded diagnostics). -/
def addIntersectedVertices (mesh : MeshData) (data : List FaceData)
    (intersectedFaceIds : List Int) (offsetMatrix : MMatrix) :
    List FaceData × List String :=
  intersectedFaceIds.foldl
    (fun acc faceId =>
      if faceId < 0 || (mesh.numPolygons : Int) ≤ faceId then
        (acc.1, acc.2 ++ ["Face ID out of bounds: " ++ toString faceId])
      else
        (acc.1 ++ [faceDataFor mesh offsetMatrix faceId.toNat], acc.2))
    (data, [])

/-- `insertTriangle` instrumented with an explicit recursion budget: `fuel`
counts call frames, every recursive call spends one unit, and an exhausted
budget returns `none` instead of recursing further.  Used to state that the
source recursion (whose `depth` strictly increases on every recursive call,
including the retry after a split) never needs more than `MAX_DEPTH + 2 -
depth` frames. -/
def insertTriangleFuel : Nat → OctreeNode → TriangleData → Nat → Option OctreeNode
  | 0, _, _, _ => none
  | fuel + 1, n, t, depth =>
    if MAX_DEPTH < depth then some (appendTriangle n t)
    else
      match n with
      | .leaf bb ts =>
          if ts.length < MAX_TRIANGLES_PER_NODE then some (.leaf bb (ts ++ [t]))
          else insertTriangleFuel fuel (splitNode (.leaf bb ts)) t (depth + 1)
      | .node bb ts a b c d e f g7 h8 =>
          let insF : OctreeNode → Option OctreeNode := fun ch =>
            if boxContainsAnyVertices ch.boundingBox t then
              insertTriangleFuel fuel ch t (depth + 1)
            else some ch
          if [a, b, c, d, e, f, g7, h8].any
              (fun ch => boxContainsAnyVertices ch.boundingBox t) then do
            let a2 ← insF a
            let b2 ← insF b
            let c2 ← insF c
            let d2 ← insF d
            let e2 ← insF e
            let f2 ← insF f
            let g2 ← insF g7
            let h2 ← insF h8
            some (.node bb ts a2 b2 c2 d2 e2 f2 g2 h2)
          else some (.node bb (ts ++ [t]) a b c d e f g7 h8)

/-! ### Basic lemmas: predicate symmetry, node accessors, tree size -/

theorem MBoundingBox.intersects_comm (a b : MBoundingBox) :
    a.intersects b = b.intersects a := by
  simp only [MBoundingBox.intersects, decide_eq_decide]
  tauto

theorem intersectTriangleTriangle_comm (t1 t2 : TriangleData) :
    intersectTriangleTriangle t1 t2 = intersectTriangleTriangle t2 t1 :=
  Bool.or_comm _ _

theorem appendTriangle_triangles (n : OctreeNode) (t : TriangleData) :
    (appendTriangle n t).triangles = n.triangles ++ [t] := by
  cases n <;> rfl

theorem appendTriangle_children (n : OctreeNode) (t : TriangleData) :
    (appendTriangle n t).children = n.children := by
  cases n <;> rfl

theorem appendTriangle_boundingBox (n : OctreeNode) (t : TriangleData) :
    (appendTriangle n t).boundingBox = n.boundingBox := by
  cases n <;> rfl

theorem treeSize_pos (n : OctreeNode) : 0 < treeSize n := by
  cases n <;> simp only [treeSize] <;> omega

theorem treeSize_lt_of_mem_children {x n : OctreeNode} (h : x ∈ n.children) :
    treeSize x < treeSize n := by
  cases n with
  | leaf bb ts => simp [OctreeNode.children] at h
  | node bb ts a b c d e f g7 h8 =>
    simp only [OctreeNode.children, List.mem_cons, List.not_mem_nil, or_false] at h
    rcases h with rfl | rfl | rfl | rfl | rfl | rfl | rfl | rfl <;>
      simp only [treeSize] <;> omega

theorem flatMap_congr_mem {α β : Type} {l : List α} {f g : α → List β}
    (h : ∀ a ∈ l, f a = g a) : l.flatMap f = l.flatMap g := by
  induction l with
  | nil => rfl
  | cons a l ih =>
    simp only [List.flatMap_cons]
    rw [h a (List.mem_cons_self a l), ih (fun x hx => h x (List.mem_cons_of_mem a hx))]

/-! ### The dual-tree traversal: gas irrelevance and the source equation -/

theorem pairsAux_gas : ∀ (g g' : Nat) (a b : OctreeNode),
    treeSize a + treeSize b ≤ g → treeSize a + treeSize b ≤ g' →
    intersectOctreeNodesRecursiveAux g a b = intersectOctreeNodesRecursiveAux g' a b := by
  intro g
  induction g with
  | zero =>
    intro g' a b hg _
    have := treeSize_pos a; have := treeSize_pos b
    omega
  | succ g ih =>
    intro g' a b hg hg'
    obtain ⟨k, rfl⟩ : ∃ k, g' = k + 1 := by
      have := treeSize_pos a; have := treeSize_pos b
      cases g' with
      | zero => omega
      | succ k => exact ⟨k, rfl⟩
    simp only [intersectOctreeNodesRecursiveAux]
    by_cases hI : a.boundingBox.intersects b.boundingBox = true
    · simp only [hI, if_true]
      by_cases hAB : (a.isLeaf && b.isLeaf) = true
      · simp only [hAB, if_true]
      · simp only [hAB, if_false]
        by_cases hA : a.isLeaf = true
        · simp only [hA, if_true]
          refine flatMap_congr_mem fun c hc => ?_
          have hlt := treeSize_lt_of_mem_children hc
          exact ih k a c (by omega) (by omega)
        · simp only [hA, if_false]
          by_cases hB : b.isLeaf = true
          · simp only [hB, if_true]
            refine flatMap_congr_mem fun c hc => ?_
            have hlt := treeSize_lt_of_mem_children hc
            exact ih k c b (by omega) (by omega)
          · simp only [hB, if_false]
            refine flatMap_congr_mem fun ca hca => ?_
            refine flatMap_congr_mem fun cb hcb => ?_
            have h1 := treeSize_lt_of_mem_children hca
            have h2 := treeSize_lt_of_mem_children hcb
            exact ih k ca cb (by omega) (by omega)
    · simp [hI]

theorem intersectOctreeNodesRecursive_unfold (a b : OctreeNode) :
    intersectOctreeNodesRecursive a b =
      if a.boundingBox.intersects b.boundingBox then
        if a.isLeaf && b.isLeaf then [(a, b)]
        else if a.isLeaf then
          b.children.flatMap (fun c => intersectOctreeNodesRecursive a c)
        else if b.isLeaf then
          a.children.flatMap (fun c => intersectOctreeNodesRecursive c b)
        else
          a.children.flatMap (fun ca =>
            b.children.flatMap (fun cb => intersectOctreeNodesRecursive ca cb))
      else [] := by
  have ha := treeSize_pos a
  have hb := treeSize_pos b
  obtain ⟨k, hk⟩ : ∃ k, treeSize a + treeSize b = k + 1 :=
    ⟨treeSize a + treeSize b - 1, by omega⟩
  unfold intersectOctreeNodesRecursive
  rw [hk]
  simp only [intersectOctreeNodesRecursiveAux]
  by_cases hI : a.boundingBox.intersects b.boundingBox = true
  · simp only [hI, if_true]
    by_cases hAB : (a.isLeaf && b.isLeaf) = true
    · simp only [hAB, if_true]
    · simp only [hAB, if_false]
      by_cases hA : a.isLeaf = true
      · simp only [hA, if_true]
        refine flatMap_congr_mem fun c hc => ?_
        have hlt := treeSize_lt_of_mem_children hc
        exact pairsAux_gas k (treeSize a + treeSize c) a c (by omega) (by omega)
      · simp only [hA, if_false]
        by_cases hB : b.isLeaf = true
        · simp only [hB, if_true]
          refine flatMap_congr_mem fun c hc => ?_
          have hlt := treeSize_lt_of_mem_children hc
          exact pairsAux_gas k (treeSize c + treeSize b) c b (by omega) (by omega)
        · simp only [hB, if_false]
          refine flatMap_congr_mem fun ca hca => ?_
          refine flatMap_congr_mem fun cb hcb => ?_
          have h1 := treeSize_lt_of_mem_children hca
          have h2 := treeSize_lt_of_mem_children hcb
          exact pairsAux_gas k (treeSize ca + treeSize cb) ca cb (by omega) (by omega)
  · simp [hI]

/-! ### `insertTriangle`: the source-shaped case equations -/

theorem insertTriangle_overflow {depth : Nat} (n : OctreeNode) (t : TriangleData)
    (h : MAX_DEPTH < depth) : insertTriangle n t depth = appendTriangle n t := by
  unfold insertTriangle
  cases hg : MAX_DEPTH + 2 - depth with
  | zero => rfl
  | succ g =>
    simp only [insertTriangleAux]
    rw [if_pos h]

theorem insertTriangle_gas_succ {depth : Nat} (h : ¬ MAX_DEPTH < depth) :
    MAX_DEPTH + 2 - depth = (MAX_DEPTH + 2 - (depth + 1)) + 1 := by
  simp only [MAX_DEPTH] at h ⊢
  omega

theorem insertTriangle_leaf_eq {depth : Nat} (bb : MBoundingBox)
    (ts : List TriangleData) (t : TriangleData) (h : ¬ MAX_DEPTH < depth) :
    insertTriangle (.leaf bb ts) t depth =
      if ts.length < MAX_TRIANGLES_PER_NODE then OctreeNode.leaf bb (ts ++ [t])
      else insertTriangle (splitNode (.leaf bb ts)) t (depth + 1) := by
  unfold insertTriangle
  rw [insertTriangle_gas_succ h]
  simp only [insertTriangleAux]
  rw [if_neg h]

theorem insertTriangle_node_eq {depth : Nat} (bb : MBoundingBox)
    (ts : List TriangleData) (a b c d e f g7 h8 : OctreeNode) (t : TriangleData)
    (h : ¬ MAX_DEPTH < depth) :
    insertTriangle (.node bb ts a b c d e f g7 h8) t depth =
      if [a, b, c, d, e, f, g7, h8].any
          (fun ch => boxContainsAnyVertices ch.boundingBox t) then
        OctreeNode.node bb ts
          (if boxContainsAnyVertices a.boundingBox t then insertTriangle a t (depth + 1) else a)
          (if boxContainsAnyVertices b.boundingBox t then insertTriangle b t (depth + 1) else b)
          (if boxContainsAnyVertices c.boundingBox t then insertTriangle c t (depth + 1) else c)
          (if boxContainsAnyVertices d.boundingBox t then insertTriangle d t (depth + 1) else d)
          (if boxContainsAnyVertices e.boundingBox t then insertTriangle e t (depth + 1) else e)
          (if boxContainsAnyVertices f.boundingBox t then insertTriangle f t (depth + 1) else f)
          (if boxContainsAnyVertices g7.boundingBox t then insertTriangle g7 t (depth + 1) else g7)
          (if boxContainsAnyVertices h8.boundingBox t then insertTriangle h8 t (depth + 1) else h8)
      else OctreeNode.node bb (ts ++ [t]) a b c d e f g7 h8 := by
  unfold insertTriangle
  rw [insertTriangle_gas_succ h]
  simp only [insertTriangleAux]
  rw [if_neg h]

/-- C2: `insertTriangle` behaves per the spec's Insert steps: past `MAX_DEPTH`
the triangle is appended to the node's own list; a leaf with spare capacity
appends it; a full leaf splits and retries on the same (now split) node at
`depth + 1`; an interior node inserts recursively into every child whose box
contains at least one vertex, and appends the triangle to itself exactly when
no child contains any vertex. -/
theorem insertTriangle_behaviour : ∀ (n : OctreeNode) (t : TriangleData) (depth : Nat),
    (MAX_DEPTH < depth →
        (insertTriangle n t depth).triangles = n.triangles ++ [t] ∧
        (insertTriangle n t depth).children = n.children ∧
        (insertTriangle n t depth).boundingBox = n.boundingBox) ∧
    (¬ MAX_DEPTH < depth → n.isLeaf = true →
        n.triangles.length < MAX_TRIANGLES_PER_NODE →
        (insertTriangle n t depth).triangles = n.triangles ++ [t] ∧
        (insertTriangle n t depth).children = n.children ∧
        (insertTriangle n t depth).boundingBox = n.boundingBox) ∧
    (¬ MAX_DEPTH < depth → n.isLeaf = true →
        ¬ n.triangles.length < MAX_TRIANGLES_PER_NODE →
        insertTriangle n t depth = insertTriangle (splitNode n) t (depth + 1)) ∧
    (¬ MAX_DEPTH < depth → n.isLeaf = false →
        (insertTriangle n t depth).children
          = n.children.map (fun c =>
              if boxContainsAnyVertices c.boundingBox t then insertTriangle c t (depth + 1)
              else c) ∧
        (insertTriangle n t depth).triangles
          = (if n.children.any (fun c => boxContainsAnyVertices c.boundingBox t)
             then n.triangles else n.triangles ++ [t]) ∧
        (insertTriangle n t depth).boundingBox = n.boundingBox) := by
  intro n t depth
  refine ⟨fun h => ?_, fun h hl hlen => ?_, fun h hl hlen => ?_, fun h hl => ?_⟩
  · rw [insertTriangle_overflow n t h]
    exact ⟨appendTriangle_triangles n t, appendTriangle_children n t,
      appendTriangle_boundingBox n t⟩
  · cases n with
    | leaf bb ts =>
      rw [insertTriangle_leaf_eq bb ts t h]
      rw [if_pos (by simpa [OctreeNode.triangles] using hlen)]
      simp [OctreeNode.triangles, OctreeNode.children, OctreeNode.boundingBox]
    | node bb ts a b c d e f g7 h8 => simp [OctreeNode.isLeaf] at hl
  · cases n with
    | leaf bb ts =>
      rw [insertTriangle_leaf_eq bb ts t h]
      rw [if_neg (by simpa [OctreeNode.triangles] using hlen)]
    | node bb ts a b c d e f g7 h8 => simp [OctreeNode.isLeaf] at hl
  · cases n with
    | leaf bb ts => simp [OctreeNode.isLeaf] at hl
    | node bb ts a b c d e f g7 h8 =>
      rw [insertTriangle_node_eq bb ts a b c d e f g7 h8 t h]
      by_cases hAny : ([a, b, c, d, e, f, g7, h8].any
          (fun ch => boxContainsAnyVertices ch.boundingBox t)) = true
      · rw [if_pos hAny]
        refine ⟨?_, ?_, rfl⟩
        · simp only [OctreeNode.children, List.map_cons, List.map_nil]
        · simp only [OctreeNode.children, OctreeNode.triangles]
          rw [if_pos hAny]
      · rw [if_neg hAny]
        rw [Bool.not_eq_true] at hAny
        have h' : ∀ ch ∈ [a, b, c, d, e, f, g7, h8],
            boxContainsAnyVertices ch.boundingBox t = false := by
          intro ch hch
          exact Bool.eq_false_iff.mpr (List.any_eq_false.mp hAny ch hch)
        have ea := h' a (by simp)
        have eb := h' b (by simp)
        have ec := h' c (by simp)
        have ed := h' d (by simp)
        have ee := h' e (by simp)
        have ef := h' f (by simp)
        have eg := h' g7 (by simp)
        have eh := h' h8 (by simp)
        refine ⟨?_, ?_, rfl⟩
        · simp [OctreeNode.children, ea, eb, ec, ed, ee, ef, eg, eh]
        · simp [OctreeNode.children, OctreeNode.triangles, hAny]

/-- C9: `insertTriangle` terminates within a recursion budget determined by
`depth` alone: every recursive call (the split retry and the child descents)
is at `depth + 1`, a call with `depth > MAX_DEPTH` returns without recursing,
and `MAX_DEPTH + 2 - depth` call frames always suffice (so from `depth = 0`
the nesting of recursive calls is bounded by `MAX_DEPTH + 1`): with any
positive fuel at least that large, the budgeted version never runs out and
agrees with `insertTriangle`. -/
theorem insertTriangle_depth_bounded : ∀ (fuel : Nat) (n : OctreeNode) (t : TriangleData)
    (depth : Nat), 0 < fuel → MAX_DEPTH + 2 ≤ depth + fuel →
    insertTriangleFuel fuel n t depth = some (insertTriangle n t depth) := by
  intro fuel
  induction fuel with
  | zero => intro n t depth hf _; omega
  | succ g ih =>
    intro n t depth _ hb
    by_cases hd : MAX_DEPTH < depth
    · simp only [insertTriangleFuel]
      rw [if_pos hd, insertTriangle_overflow n t hd]
    · have hg : 0 < g ∧ MAX_DEPTH + 2 ≤ (depth + 1) + g := by
        simp only [MAX_DEPTH] at hd hb ⊢
        omega
      cases n with
      | leaf bb ts =>
        simp only [insertTriangleFuel]
        rw [if_neg hd]
        rw [insertTriangle_leaf_eq bb ts t hd]
        by_cases hlen : ts.length < MAX_TRIANGLES_PER_NODE
        · rw [if_pos hlen, if_pos hlen]
        · rw [if_neg hlen, if_neg hlen]
          exact ih (splitNode (.leaf bb ts)) t (depth + 1) hg.1 hg.2
      | node bb ts a b c d e f g7 h8 =>
        simp only [insertTriangleFuel]
        rw [if_neg hd]
        rw [insertTriangle_node_eq bb ts a b c d e f g7 h8 t hd]
        have step : ∀ ch : OctreeNode,
            (if boxContainsAnyVertices ch.boundingBox t then
                insertTriangleFuel g ch t (depth + 1)
             else some ch)
              = some (if boxContainsAnyVertices ch.boundingBox t then
                  insertTriangle ch t (depth + 1) else ch) := by
          intro ch
          by_cases hc : boxContainsAnyVertices ch.boundingBox t = true
          · rw [if_pos hc, if_pos hc]
            exact ih ch t (depth + 1) hg.1 hg.2
          · rw [if_neg hc, if_neg hc]
        by_cases hAny : ([a, b, c, d, e, f, g7, h8].any
            (fun ch => boxContainsAnyVertices ch.boundingBox t)) = true
        · rw [if_pos hAny, if_pos hAny]
          simp only [step, Option.some_bind, bind, Option.bind]
        · rw [if_neg hAny, if_neg hAny]

/-! ### The dual-tree traversal: emitted pairs and the kernel query -/

theorem pairsAux_mem : ∀ (g : Nat) (a b : OctreeNode) (p : OctreeNode × OctreeNode),
    p ∈ intersectOctreeNodesRecursiveAux g a b →
    p.1.isLeaf = true ∧ p.2.isLeaf = true ∧
      p.1.boundingBox.intersects p.2.boundingBox = true := by
  intro g
  induction g with
  | zero => intro a b p hp; simp [intersectOctreeNodesRecursiveAux] at hp
  | succ g ih =>
    intro a b p hp
    simp only [intersectOctreeNodesRecursiveAux] at hp
    by_cases hI : a.boundingBox.intersects b.boundingBox = true
    · rw [if_pos hI] at hp
      by_cases hAB : (a.isLeaf && b.isLeaf) = true
      · rw [if_pos hAB] at hp
        rw [List.mem_singleton] at hp
        subst hp
        obtain ⟨h1, h2⟩ := Bool.and_eq_true_iff.mp hAB
        exact ⟨h1, h2, hI⟩
      · rw [if_neg hAB] at hp
        by_cases hA : a.isLeaf = true
        · rw [if_pos hA] at hp
          rw [List.mem_flatMap] at hp
          obtain ⟨c, _, hc⟩ := hp
          exact ih a c p hc
        · rw [if_neg hA] at hp
          by_cases hB : b.isLeaf = true
          · rw [if_pos hB] at hp
            rw [List.mem_flatMap] at hp
            obtain ⟨c, _, hc⟩ := hp
            exact ih c b p hc
          · rw [if_neg hB] at hp
            rw [List.mem_flatMap] at hp
            obtain ⟨ca, _, hca⟩ := hp
            rw [List.mem_flatMap] at hca
            obtain ⟨cb, _, hcb⟩ := hca
            exact ih ca cb p hcb
    · rw [if_neg hI] at hp
      simp at hp

theorem mem_leafPairHits {nA nB : OctreeNode} {s t : TriangleData} :
    (s, t) ∈ leafPairHits nA nB ↔
      nA.isLeaf = true ∧ nB.isLeaf = true ∧ s ∈ nA.triangles ∧ t ∈ nB.triangles ∧
        intersectTriangleTriangle s t = true := by
  unfold leafPairHits
  by_cases h : (nA.isLeaf && nB.isLeaf) = true
  · obtain ⟨h1, h2⟩ := Bool.and_eq_true_iff.mp h
    rw [if_pos h]
    simp only [List.mem_flatMap, List.mem_filterMap, h1, h2, true_and]
    constructor
    · rintro ⟨tA, hA, tB, hB, hif⟩
      by_cases hP : intersectTriangleTriangle tA tB = true
      · rw [if_pos hP] at hif
        obtain ⟨rfl, rfl⟩ := Prod.mk.injEq .. ▸ Option.some.inj hif
        exact ⟨hA, hB, hP⟩
      · rw [if_neg hP] at hif
        cases hif
    · rintro ⟨hs, ht, hP⟩
      exact ⟨s, hs, t, ht, by rw [if_pos hP]⟩
  · rw [if_neg h]
    simp only [List.not_mem_nil, false_iff]
    rintro ⟨h1, h2, -⟩
    rw [h1, h2] at h
    exact h rfl

theorem forall2_of_mem {α β : Type} {H : List (α × β)} {R : α → β → Prop}
    (h : ∀ p ∈ H, R p.1 p.2) :
    List.Forall₂ R (H.map Prod.fst) (H.map Prod.snd) := by
  induction H with
  | nil => exact List.Forall₂.nil
  | cons p H ih =>
    simp only [List.map_cons]
    exact List.Forall₂.cons (h p (List.mem_cons_self p H))
      (ih fun q hq => h q (List.mem_cons_of_mem p hq))

/-- C1: every pair emitted by the dual-tree traversal consists of two leaves
with overlapping bounding boxes; consequently every triangle occurring in
either component of the `intersectKernelKernel` result is drawn from the
triangle list of a leaf node of an emitted pair — a triangle lodged at an
interior node can never contribute. -/
theorem k2k_pairs_leaf_only : ∀ (kA kB : OctreeKernel),
    (∀ p ∈ intersectOctreeNodesRecursive kA.root kB.root,
        p.1.isLeaf = true ∧ p.2.isLeaf = true ∧
        p.1.boundingBox.intersects p.2.boundingBox = true) ∧
    (∀ s ∈ (intersectKernelKernel kA (.octree kB)).1,
        ∃ nA nB, (nA, nB) ∈ intersectOctreeNodesRecursive kA.root kB.root ∧
          nA.isLeaf = true ∧ nB.isLeaf = true ∧ s ∈ nA.triangles) ∧
    (∀ s ∈ (intersectKernelKernel kA (.octree kB)).2,
        ∃ nA nB, (nA, nB) ∈ intersectOctreeNodesRecursive kA.root kB.root ∧
          nA.isLeaf = true ∧ nB.isLeaf = true ∧ s ∈ nB.triangles) := by
  intro kA kB
  refine ⟨fun p hp => pairsAux_mem _ _ _ p hp, ?_, ?_⟩
  · intro s hs
    have he : (intersectKernelKernel kA (.octree kB)).1
        = ((intersectOctreeNodesRecursive kA.root kB.root).flatMap
            (fun p => leafPairHits p.1 p.2)).map Prod.fst := rfl
    rw [he, List.mem_map] at hs
    obtain ⟨⟨x, y⟩, hxy, rfl⟩ := hs
    rw [List.mem_flatMap] at hxy
    obtain ⟨⟨pA, pB⟩, hpair, hm⟩ := hxy
    obtain ⟨h1, h2, hx, _, _⟩ := mem_leafPairHits.mp hm
    exact ⟨pA, pB, hpair, h1, h2, hx⟩
  · intro s hs
    have he : (intersectKernelKernel kA (.octree kB)).2
        = ((intersectOctreeNodesRecursive kA.root kB.root).flatMap
            (fun p => leafPairHits p.1 p.2)).map Prod.snd := rfl
    rw [he, List.mem_map] at hs
    obtain ⟨⟨x, y⟩, hxy, rfl⟩ := hs
    rw [List.mem_flatMap] at hxy
    obtain ⟨⟨pA, pB⟩, hpair, hm⟩ := hxy
    obtain ⟨h1, h2, _, hy, _⟩ := mem_leafPairHits.mp hm
    exact ⟨pA, pB, hpair, h1, h2, hy⟩

/-- C10: the two triangle collections returned by `intersectKernelKernel`
have equal length, and position by position the two triangles satisfy the
triangle-triangle intersection predicate: each position records one
predicate hit found in a leaf pair of the traversal. -/
theorem k2k_pointwise : ∀ (kA kB : OctreeKernel),
    (intersectKernelKernel kA (.octree kB)).1.length
      = (intersectKernelKernel kA (.octree kB)).2.length ∧
    List.Forall₂ (fun s t => intersectTriangleTriangle s t = true)
      (intersectKernelKernel kA (.octree kB)).1
      (intersectKernelKernel kA (.octree kB)).2 := by
  intro kA kB
  have hH : ∀ p ∈ (intersectOctreeNodesRecursive kA.root kB.root).flatMap
      (fun p => leafPairHits p.1 p.2), intersectTriangleTriangle p.1 p.2 = true := by
    intro p hp
    rw [List.mem_flatMap] at hp
    obtain ⟨⟨pA, pB⟩, _, hq⟩ := hp
    obtain ⟨x, y⟩ := p
    exact (mem_leafPairHits.mp hq).2.2.2.2
  refine ⟨?_, forall2_of_mem hH⟩
  show (List.map Prod.fst _).length = (List.map Prod.snd _).length
  rw [List.length_map, List.length_map]

/-- C7: handed a kernel that is not an octree kernel (the `dynamic_cast`
fails), `intersectKernelKernel` returns a pair of two empty triangle
collections and the collapsed face-id sets are empty; the embedding is pure,
so no state is touched. -/
theorem k2k_incompatible_kernel : ∀ kA : OctreeKernel,
    intersectKernelKernel kA SpatialDivisionKernel.nonOctree = ([], []) ∧
    faceIdSets kA SpatialDivisionKernel.nonOctree = ([], []) :=
  fun _ => ⟨rfl, rfl⟩

theorem pairsAux_disjoint (g : Nat) (a b : OctreeNode)
    (h : a.boundingBox.intersects b.boundingBox = false) :
    intersectOctreeNodesRecursiveAux g a b = [] := by
  cases g with
  | zero => rfl
  | succ g => simp [intersectOctreeNodesRecursiveAux, h]

/-- C6: when the two kernels' root bounding boxes do not overlap on some
axis, the traversal emits nothing, `intersectKernelKernel` returns two empty
collections, and both face-id sets are empty. -/
theorem k2k_disjoint_empty : ∀ (kA kB : OctreeKernel),
    kA.root.boundingBox.intersects kB.root.boundingBox = false →
    intersectKernelKernel kA (.octree kB) = ([], []) ∧
    faceIdSets kA (.octree kB) = ([], []) := by
  intro kA kB h
  have hp : intersectOctreeNodesRecursive kA.root kB.root = [] :=
    pairsAux_disjoint _ _ _ h
  constructor
  · simp [intersectKernelKernel, hp]
  · simp [faceIdSets, intersectKernelKernel, hp]

/-- C4: the externally observed result of the kernel-vs-kernel query is a
pair of deduplicated face-id sets: whatever the two kernels are (and however
often a triangle was duplicated across octree nodes or reached through
several leaf pairs), no face id occurs twice in either component. -/
theorem faceIdSets_nodup : ∀ (kA : OctreeKernel) (k : SpatialDivisionKernel),
    (faceIdSets kA k).1.Nodup ∧ (faceIdSets kA k).2.Nodup :=
  fun _ _ => ⟨List.nodup_dedup _, List.nodup_dedup _⟩

/-! ### Symmetry of the kernel-vs-kernel query -/

theorem pairsAux_swap : ∀ (g : Nat) (a b x y : OctreeNode),
    (x, y) ∈ intersectOctreeNodesRecursiveAux g a b ↔
    (y, x) ∈ intersectOctreeNodesRecursiveAux g b a := by
  intro g
  induction g with
  | zero => intro a b x y; simp [intersectOctreeNodesRecursiveAux]
  | succ g ih =>
    intro a b x y
    simp only [intersectOctreeNodesRecursiveAux]
    by_cases hI : a.boundingBox.intersects b.boundingBox = true
    · have hI2 : b.boundingBox.intersects a.boundingBox = true := by
        rw [MBoundingBox.intersects_comm]; exact hI
      rw [if_pos hI, if_pos hI2]
      by_cases hA : a.isLeaf = true <;> by_cases hB : b.isLeaf = true
      · have g1 : (a.isLeaf && b.isLeaf) = true := by rw [hA, hB]; rfl
        have g2 : (b.isLeaf && a.isLeaf) = true := by rw [hA, hB]; rfl
        rw [if_pos g1, if_pos g2]
        rw [List.mem_singleton, List.mem_singleton, Prod.mk.injEq, Prod.mk.injEq]
        constructor
        · rintro ⟨rfl, rfl⟩; exact ⟨rfl, rfl⟩
        · rintro ⟨rfl, rfl⟩; exact ⟨rfl, rfl⟩
      · have g1 : ¬ (a.isLeaf && b.isLeaf) = true := by simp [hA, hB]
        have g2 : ¬ (b.isLeaf && a.isLeaf) = true := by simp [hA, hB]
        rw [if_neg g1, if_neg g2, if_pos hA, if_neg hB, if_pos hA]
        rw [List.mem_flatMap, List.mem_flatMap]
        constructor
        · rintro ⟨c, hc, hm⟩; exact ⟨c, hc, (ih a c x y).mp hm⟩
        · rintro ⟨c, hc, hm⟩; exact ⟨c, hc, (ih a c x y).mpr hm⟩
      · have g1 : ¬ (a.isLeaf && b.isLeaf) = true := by simp [hA, hB]
        have g2 : ¬ (b.isLeaf && a.isLeaf) = true := by simp [hA, hB]
        rw [if_neg g1, if_neg g2, if_neg hA, if_pos hB, if_pos hB]
        rw [List.mem_flatMap, List.mem_flatMap]
        constructor
        · rintro ⟨c, hc, hm⟩; exact ⟨c, hc, (ih c b x y).mp hm⟩
        · rintro ⟨c, hc, hm⟩; exact ⟨c, hc, (ih c b x y).mpr hm⟩
      · have g1 : ¬ (a.isLeaf && b.isLeaf) = true := by simp [hA, hB]
        have g2 : ¬ (b.isLeaf && a.isLeaf) = true := by simp [hA, hB]
        rw [if_neg g1, if_neg g2, if_neg hA, if_neg hB, if_neg hB, if_neg hA]
        simp only [List.mem_flatMap]
        constructor
        · rintro ⟨ca, hca, cb, hcb, hm⟩
          exact ⟨cb, hcb, ca, hca, (ih ca cb x y).mp hm⟩
        · rintro ⟨cb, hcb, ca, hca, hm⟩
          exact ⟨ca, hca, cb, hcb, (ih ca cb x y).mpr hm⟩
    · have hI2 : ¬ b.boundingBox.intersects a.boundingBox = true := by
        rw [MBoundingBox.intersects_comm]; exact hI
      rw [if_neg hI, if_neg hI2]
      simp

theorem pairs_swap (a b x y : OctreeNode) :
    (x, y) ∈ intersectOctreeNodesRecursive a b ↔
    (y, x) ∈ intersectOctreeNodesRecursive b a := by
  unfold intersectOctreeNodesRecursive
  rw [Nat.add_comm (treeSize b) (treeSize a)]
  exact pairsAux_swap _ a b x y

theorem mem_hits_swap (rA rB : OctreeNode) (s t : TriangleData) :
    (s, t) ∈ (intersectOctreeNodesRecursive rA rB).flatMap
        (fun p => leafPairHits p.1 p.2) ↔
    (t, s) ∈ (intersectOctreeNodesRecursive rB rA).flatMap
        (fun p => leafPairHits p.1 p.2) := by
  rw [List.mem_flatMap, List.mem_flatMap]
  constructor
  · rintro ⟨⟨pA, pB⟩, hpair, hm⟩
    obtain ⟨h1, h2, hs, ht, hP⟩ := mem_leafPairHits.mp hm
    exact ⟨(pB, pA), (pairs_swap rA rB pA pB).mp hpair,
      mem_leafPairHits.mpr ⟨h2, h1, ht, hs,
        by rw [intersectTriangleTriangle_comm]; exact hP⟩⟩
  · rintro ⟨⟨pB, pA⟩, hpair, hm⟩
    obtain ⟨h1, h2, ht, hs, hP⟩ := mem_leafPairHits.mp hm
    exact ⟨(pA, pB), (pairs_swap rB rA pB pA).mp hpair,
      mem_leafPairHits.mpr ⟨h2, h1, hs, ht,
        by rw [intersectTriangleTriangle_comm]; exact hP⟩⟩

theorem mem_faceIdSets_fst (kA kB : OctreeKernel) (z : Int) :
    z ∈ (faceIdSets kA (.octree kB)).1 ↔
      ∃ s t, (s, t) ∈ (intersectOctreeNodesRecursive kA.root kB.root).flatMap
        (fun p => leafPairHits p.1 p.2) ∧ s.faceId = z := by
  show z ∈ (((_ : List (TriangleData × TriangleData)).map Prod.fst).map
      TriangleData.faceId).dedup ↔ _
  rw [List.mem_dedup, List.mem_map]
  constructor
  · rintro ⟨s, hs, rfl⟩
    rw [List.mem_map] at hs
    obtain ⟨⟨s, t⟩, hm, rfl⟩ := hs
    exact ⟨s, t, hm, rfl⟩
  · rintro ⟨s, t, hm, rfl⟩
    exact ⟨s, List.mem_map.mpr ⟨(s, t), hm, rfl⟩, rfl⟩

theorem mem_faceIdSets_snd (kA kB : OctreeKernel) (z : Int) :
    z ∈ (faceIdSets kA (.octree kB)).2 ↔
      ∃ s t, (s, t) ∈ (intersectOctreeNodesRecursive kA.root kB.root).flatMap
        (fun p => leafPairHits p.1 p.2) ∧ t.faceId = z := by
  show z ∈ (((_ : List (TriangleData × TriangleData)).map Prod.snd).map
      TriangleData.faceId).dedup ↔ _
  rw [List.mem_dedup, List.mem_map]
  constructor
  · rintro ⟨t, ht, rfl⟩
    rw [List.mem_map] at ht
    obtain ⟨⟨s, t⟩, hm, rfl⟩ := ht
    exact ⟨s, t, hm, rfl⟩
  · rintro ⟨s, t, hm, rfl⟩
    exact ⟨t, List.mem_map.mpr ⟨(s, t), hm, rfl⟩, rfl⟩

/-- C5: the kernel-vs-kernel query is symmetric as sets of face ids: if
`A.intersect(B)` yields `(fa, fb)` and `B.intersect(A)` yields `(fb', fa')`,
then `fa = fa'` and `fb = fb'` as sets. -/
theorem k2k_symmetric : ∀ (kA kB : OctreeKernel),
    (faceIdSets kA (.octree kB)).1.toFinset
      = (faceIdSets kB (.octree kA)).2.toFinset ∧
    (faceIdSets kA (.octree kB)).2.toFinset
      = (faceIdSets kB (.octree kA)).1.toFinset := by
  intro kA kB
  constructor
  · apply Finset.ext
    intro z
    rw [List.mem_toFinset, List.mem_toFinset, mem_faceIdSets_fst, mem_faceIdSets_snd]
    constructor
    · rintro ⟨s, t, hm, rfl⟩
      exact ⟨t, s, (mem_hits_swap kA.root kB.root s t).mp hm, rfl⟩
    · rintro ⟨t, s, hm, rfl⟩
      exact ⟨s, t, (mem_hits_swap kA.root kB.root s t).mpr hm, rfl⟩
  · apply Finset.ext
    intro z
    rw [List.mem_toFinset, List.mem_toFinset, mem_faceIdSets_snd, mem_faceIdSets_fst]
    constructor
    · rintro ⟨s, t, hm, rfl⟩
      exact ⟨t, s, (mem_hits_swap kA.root kB.root s t).mp hm, rfl⟩
    · rintro ⟨t, s, hm, rfl⟩
      exact ⟨s, t, (mem_hits_swap kA.root kB.root s t).mpr hm, rfl⟩

/-! ### Result assembly: out-of-range face ids -/

/-- C8: during result assembly every face id outside `[0, numPolygons)`
contributes no face data, records one diagnostic, and processing continues:
the assembled face list is exactly the prior contents followed by the face
data of the in-range ids in order, and the diagnostics are exactly one
out-of-bounds message per out-of-range id. -/
theorem addIntersectedVertices_spec : ∀ (mesh : MeshData) (data : List FaceData)
    (ids : List Int) (M : MMatrix),
    (addIntersectedVertices mesh data ids M).1
      = data ++ (ids.filter
          (fun fid => !(fid < 0 || (mesh.numPolygons : Int) ≤ fid))).map
            (fun fid => faceDataFor mesh M fid.toNat) ∧
    (addIntersectedVertices mesh data ids M).2
      = (ids.filter (fun fid => fid < 0 || (mesh.numPolygons : Int) ≤ fid)).map
          (fun fid => "Face ID out of bounds: " ++ toString fid) := by
  intro mesh data ids M
  suffices h : ∀ (l : List Int) (acc : List FaceData × List String),
      (l.foldl
        (fun acc faceId =>
          if faceId < 0 || (mesh.numPolygons : Int) ≤ faceId then
            (acc.1, acc.2 ++ ["Face ID out of bounds: " ++ toString faceId])
          else
            (acc.1 ++ [faceDataFor mesh M faceId.toNat], acc.2))
        acc)
      = (acc.1 ++ (l.filter
            (fun fid => !(fid < 0 || (mesh.numPolygons : Int) ≤ fid))).map
              (fun fid => faceDataFor mesh M fid.toNat),
         acc.2 ++ (l.filter
            (fun fid => fid < 0 || (mesh.numPolygons : Int) ≤ fid)).map
              (fun fid => "Face ID out of bounds: " ++ toString fid)) by
    unfold addIntersectedVertices
    rw [h ids (data, [])]
    exact ⟨rfl, by simp⟩
  intro l
  induction l with
  | nil => intro acc; simp
  | cons fid l ih =>
    intro acc
    rw [List.foldl_cons, ih]
    by_cases hc : (fid < 0 || (mesh.numPolygons : Int) ≤ fid) = true
    · rw [if_pos hc]
      simp only [List.filter_cons, hc, Bool.not_true, if_pos, List.map_cons]
      simp [List.append_assoc]
    · rw [if_neg hc]
      rw [Bool.not_eq_true] at hc
      simp only [List.filter_cons, hc, Bool.not_false, List.map_cons]
      simp [List.append_assoc]

/-! ### `splitNode`: where each triangle goes -/

theorem firstIdxFrom_none {p : MBoundingBox → Bool} :
    ∀ (l : List MBoundingBox) (s : Nat),
    firstIdxFrom p l s = none ↔ ∀ b ∈ l, p b = false := by
  intro l
  induction l with
  | nil => intro s; simp [firstIdxFrom]
  | cons b l ih =>
    intro s
    simp only [firstIdxFrom]
    by_cases hb : p b = true
    · rw [if_pos hb]
      simp only [reduceCtorEq, false_iff]
      intro hall
      exact absurd (hall b (List.mem_cons_self b l)) (by simp [hb])
    · rw [if_neg hb]
      rw [Bool.not_eq_true] at hb
      rw [ih (s + 1)]
      constructor
      · intro h c hc
        rcases List.mem_cons.mp hc with rfl | hc
        · exact hb
        · exact h c hc
      · intro h c hc
        exact h c (List.mem_cons_of_mem b hc)

theorem firstIdxFrom_some {p : MBoundingBox → Bool} :
    ∀ (l : List MBoundingBox) (s i : Nat),
    firstIdxFrom p l s = some i →
    s ≤ i ∧ i - s < l.length ∧ p (l.getD (i - s) default) = true ∧
      ∀ m < i - s, p (l.getD m default) = false := by
  intro l
  induction l with
  | nil => intro s i h; cases h
  | cons b l ih =>
    intro s i h
    simp only [firstIdxFrom] at h
    by_cases hb : p b = true
    · rw [if_pos hb] at h
      obtain rfl := Option.some.inj h
      refine ⟨Nat.le_refl s, by simp, ?_, ?_⟩
      · simpa using hb
      · intro m hm; omega
    · rw [if_neg hb] at h
      rw [Bool.not_eq_true] at hb
      obtain ⟨h1, h2, h3, h4⟩ := ih (s + 1) i h
      have his : i - s = (i - (s + 1)) + 1 := by omega
      refine ⟨by omega, by simp only [List.length_cons]; omega, ?_, ?_⟩
      · rw [his]
        simpa using h3
      · intro m hm
        cases m with
        | zero => simpa using hb
        | succ m =>
          have : m < i - (s + 1) := by omega
          simpa using h4 m this

theorem foldMin_spec (d : Nat → ℚ) :
    ∀ (n : Nat) (r : Nat), 0 < n →
    r = (List.range n).foldl (fun best i => if d i < d best then i else best) 0 →
    r < n ∧ (∀ j < n, d r ≤ d j) ∧ ∀ j < r, d r < d j := by
  intro n
  induction n with
  | zero => intro r h; omega
  | succ n ih =>
    intro r _ hr
    rcases Nat.eq_zero_or_pos n with rfl | hn
    · have : r = 0 := by
        rw [hr]
        simp [List.range_succ, List.range_zero]
      subst this
      refine ⟨by omega, ?_, by omega⟩
      intro j hj
      have : j = 0 := by omega
      subst this
      exact le_refl _
    · have hsplit : (List.range (n + 1)).foldl
          (fun best i => if d i < d best then i else best) 0
          = if d n < d ((List.range n).foldl
              (fun best i => if d i < d best then i else best) 0) then n
            else (List.range n).foldl (fun best i => if d i < d best then i else best) 0 := by
        rw [List.range_succ, List.foldl_append, List.foldl_cons, List.foldl_nil]
      obtain ⟨h1, h2, h3⟩ := ih _ hn rfl
      rw [hsplit] at hr
      by_cases hlt : d n < d ((List.range n).foldl
          (fun best i => if d i < d best then i else best) 0)
      · rw [if_pos hlt] at hr
        refine ⟨by omega, ?_, ?_⟩
        · intro j hj
          rw [hr]
          rcases Nat.lt_or_ge j n with hjn | hjn
          · exact le_of_lt (lt_of_lt_of_le hlt (h2 j hjn))
          · have hje : j = n := by omega
            rw [hje]
        · intro j hj
          rw [hr] at hj ⊢
          exact lt_of_lt_of_le hlt (h2 j hj)
      · rw [if_neg hlt] at hr
        refine ⟨by omega, ?_, ?_⟩
        · intro j hj
          rw [hr]
          rcases Nat.lt_or_ge j n with hjn | hjn
          · exact h2 j hjn
          · have hje : j = n := by omega
            rw [hje]
            exact le_of_not_lt hlt
        · intro j hj
          rw [hr] at hj ⊢
          exact h3 j hj

theorem getD_mem {α : Type} (l : List α) (j : Nat) (d : α) (h : j < l.length) :
    l.getD j d ∈ l := by
  rw [List.getD_eq_getElem l d h]
  exact List.getElem_mem _

theorem getD_set_eq {α : Type} (l : List α) (i : Nat) (x d : α) (h : i < l.length) :
    (l.set i x).getD i d = x := by
  rw [List.getD_eq_getElem (l.set i x) d (by rw [List.length_set]; exact h)]
  simp

theorem getD_set_ne {α : Type} (l : List α) (i j : Nat) (x d : α) (hne : i ≠ j)
    (hj : j < l.length) : (l.set i x).getD j d = l.getD j d := by
  rw [List.getD_eq_getElem (l.set i x) d (by rw [List.length_set]; exact hj),
      List.getD_eq_getElem l d hj]
  simp [List.getElem_set_ne hne]

theorem assignChild_lt {boxes : List MBoundingBox} (hlen : boxes.length = 8)
    (t : TriangleData) : assignChild boxes t < 8 := by
  cases h : firstIdxFrom (fun b => boxContainsAllVertices b t) boxes 0 with
  | some i =>
    have h2 := firstIdxFrom_some boxes 0 i h
    simp only [assignChild, h]
    rw [hlen] at h2
    omega
  | none =>
    simp only [assignChild, h]
    obtain ⟨h1, -, -⟩ := foldMin_spec
      (fun j => Point.dist2 ((boxes.getD j default).center) (baryCenter t)) 8
      (nearestChildIdx boxes (baryCenter t)) (by omega)
      (by unfold nearestChildIdx; rw [hlen])
    exact h1

theorem assignChild_first {boxes : List MBoundingBox} (hlen : boxes.length = 8)
    (t : TriangleData) (j : Nat) (hj : j < 8)
    (hc : boxContainsAllVertices (boxes.getD j default) t = true) :
    boxContainsAllVertices (boxes.getD (assignChild boxes t) default) t = true ∧
    assignChild boxes t ≤ j := by
  cases h : firstIdxFrom (fun b => boxContainsAllVertices b t) boxes 0 with
  | none =>
    exfalso
    have hall := (firstIdxFrom_none boxes 0).mp h
    have hmem : boxes.getD j default ∈ boxes := getD_mem boxes j default (by omega)
    have := hall _ hmem
    simp only at this
    rw [hc] at this
    cases this
  | some i =>
    obtain ⟨-, h2, h3, h4⟩ := firstIdxFrom_some boxes 0 i h
    simp only [Nat.sub_zero] at h2 h3 h4
    have hassign : assignChild boxes t = i := by simp [assignChild, h]
    rw [hassign]
    refine ⟨by simpa using h3, ?_⟩
    by_contra hgt
    push_neg at hgt
    have := h4 j hgt
    simp only at this
    rw [hc] at this
    cases this

theorem assignChild_nearest {boxes : List MBoundingBox} (hlen : boxes.length = 8)
    (t : TriangleData)
    (hnone : ∀ j, j < 8 → boxContainsAllVertices (boxes.getD j default) t = false) :
    (∀ j, j < 8 →
      Point.dist2 ((boxes.getD (assignChild boxes t) default).center) (baryCenter t)
        ≤ Point.dist2 ((boxes.getD j default).center) (baryCenter t)) ∧
    (∀ j, j < assignChild boxes t →
      Point.dist2 ((boxes.getD (assignChild boxes t) default).center) (baryCenter t)
        < Point.dist2 ((boxes.getD j default).center) (baryCenter t)) := by
  have hfi : firstIdxFrom (fun b => boxContainsAllVertices b t) boxes 0 = none := by
    rw [firstIdxFrom_none]
    intro b hb
    obtain ⟨k, hk, rfl⟩ := List.mem_iff_getElem.mp hb
    have hkk := hnone k (by omega)
    rw [List.getD_eq_getElem boxes default hk] at hkk
    simpa using hkk
  have hassign : assignChild boxes t = nearestChildIdx boxes (baryCenter t) := by
    simp [assignChild, hfi]
  obtain ⟨-, h2, h3⟩ := foldMin_spec
    (fun j => Point.dist2 ((boxes.getD j default).center) (baryCenter t)) 8
    (nearestChildIdx boxes (baryCenter t)) (by omega)
    (by unfold nearestChildIdx; rw [hlen])
  rw [hassign]
  exact ⟨h2, h3⟩

theorem distributeTriangles_fold {boxes : List MBoundingBox} (hlen : boxes.length = 8) :
    ∀ (ts : List TriangleData) (acc : List (List TriangleData)), acc.length = 8 →
    ∀ i, i < 8 →
    (ts.foldl (distStep boxes) acc).getD i []
      = acc.getD i [] ++ ts.filter (fun t => assignChild boxes t = i) := by
  intro ts
  induction ts with
  | nil => intro acc hacc i hi; simp
  | cons t ts ih =>
    intro acc hacc i hi
    have hlt := assignChild_lt hlen t
    have hstep : (distStep boxes acc t).length = 8 := by
      simp only [distStep, List.length_set]
      exact hacc
    rw [List.foldl_cons, ih (distStep boxes acc t) hstep i hi, List.filter_cons]
    by_cases heq : assignChild boxes t = i
    · have hd : (distStep boxes acc t).getD i [] = acc.getD i [] ++ [t] := by
        simp only [distStep]
        rw [heq]
        exact getD_set_eq acc i _ [] (by omega)
      rw [hd]
      rw [if_pos (by simp [heq])]
      simp [List.append_assoc]
    · have hd : (distStep boxes acc t).getD i [] = acc.getD i [] := by
        simp only [distStep]
        exact getD_set_ne acc (assignChild boxes t) i _ [] heq (by omega)
      rw [hd]
      rw [if_neg (by simp [heq])]

/-- C3: after `splitNode`, the node's own list is empty and each triangle it
held resides in exactly one of the 8 fresh leaf children — in the child
`assignChild` picks, which is the first child (in octant-enumeration order)
whose box contains all three vertices if one exists, and otherwise the child
whose box centre is nearest the triangle's barycentre in Euclidean distance
(compared via squared distances, ties broken by lowest index). -/
theorem splitNode_distribution : ∀ n : OctreeNode,
    (splitNode n).triangles = [] ∧
    (splitNode n).boundingBox = n.boundingBox ∧
    (splitNode n).children.length = 8 ∧
    (∀ i, i < 8 →
      ((splitNode n).children.getD i default).boundingBox
          = (octantBoxes n.boundingBox).getD i default ∧
      ((splitNode n).children.getD i default).children = [] ∧
      ((splitNode n).children.getD i default).triangles
          = n.triangles.filter
              (fun t => assignChild (octantBoxes n.boundingBox) t = i)) ∧
    (∀ t ∈ n.triangles, ∃! i, i < 8 ∧
        t ∈ ((splitNode n).children.getD i default).triangles) ∧
    (∀ t (j : Nat), j < 8 →
        boxContainsAllVertices ((octantBoxes n.boundingBox).getD j default) t = true →
        boxContainsAllVertices ((octantBoxes n.boundingBox).getD
            (assignChild (octantBoxes n.boundingBox) t) default) t = true ∧
        assignChild (octantBoxes n.boundingBox) t ≤ j) ∧
    (∀ t, (∀ j, j < 8 →
        boxContainsAllVertices ((octantBoxes n.boundingBox).getD j default) t = false) →
        (∀ j, j < 8 →
          Point.dist2 (((octantBoxes n.boundingBox).getD
              (assignChild (octantBoxes n.boundingBox) t) default).center) (baryCenter t)
            ≤ Point.dist2 (((octantBoxes n.boundingBox).getD j default).center)
                (baryCenter t)) ∧
        (∀ j, j < assignChild (octantBoxes n.boundingBox) t →
          Point.dist2 (((octantBoxes n.boundingBox).getD
              (assignChild (octantBoxes n.boundingBox) t) default).center) (baryCenter t)
            < Point.dist2 (((octantBoxes n.boundingBox).getD j default).center)
                (baryCenter t))) := by
  intro n
  have hlen : (octantBoxes n.boundingBox).length = 8 := rfl
  have hrep : ((List.replicate 8 ([] : List TriangleData))).length = 8 := by simp
  have hdist : ∀ i, i < 8 →
      (distributeTriangles (octantBoxes n.boundingBox) n.triangles).getD i []
        = n.triangles.filter
            (fun t => assignChild (octantBoxes n.boundingBox) t = i) := by
    intro i hi
    unfold distributeTriangles
    rw [distributeTriangles_fold hlen n.triangles (List.replicate 8 []) hrep i hi]
    have : (List.replicate 8 ([] : List TriangleData)).getD i [] = [] := by
      interval_cases i <;> rfl
    rw [this, List.nil_append]
  have hchild : ∀ i, i < 8 →
      ((splitNode n).children.getD i default)
        = OctreeNode.leaf ((octantBoxes n.boundingBox).getD i default)
            ((distributeTriangles (octantBoxes n.boundingBox) n.triangles).getD i []) := by
    intro i hi
    interval_cases i <;> rfl
  refine ⟨rfl, rfl, rfl, ?_, ?_, ?_, ?_⟩
  · intro i hi
    rw [hchild i hi]
    refine ⟨rfl, rfl, ?_⟩
    show (distributeTriangles (octantBoxes n.boundingBox) n.triangles).getD i [] = _
    exact hdist i hi
  · intro t ht
    have hi0 := assignChild_lt hlen t
    refine ⟨assignChild (octantBoxes n.boundingBox) t, ⟨hi0, ?_⟩, ?_⟩
    · rw [hchild _ hi0]
      show t ∈ (distributeTriangles (octantBoxes n.boundingBox) n.triangles).getD _ []
      rw [hdist _ hi0, List.mem_filter]
      exact ⟨ht, by simp⟩
    · rintro j ⟨hj8, hjm⟩
      rw [hchild j hj8] at hjm
      have hjm2 : t ∈ (distributeTriangles (octantBoxes n.boundingBox)
          n.triangles).getD j [] := hjm
      rw [hdist j hj8, List.mem_filter] at hjm2
      have := hjm2.2
      simp only [decide_eq_true_eq] at this
      omega
  · intro t j hj hcont
    exact assignChild_first hlen t j hj hcont
  · intro t hnone
    exact assignChild_nearest hlen t hnone

/-! ### Concrete witnesses -/

/-- C6 witness: two leaf kernels with disjoint unit boxes produce the empty
pair. -/
theorem k2k_disjoint_empty_witness :
    (OctreeKernel.mk (.leaf ⟨⟨0, 0, 0⟩, ⟨1, 1, 1⟩⟩ [])).root.boundingBox.intersects
      (OctreeKernel.mk (.leaf ⟨⟨5, 5, 5⟩, ⟨6, 6, 6⟩⟩ [])).root.boundingBox = false ∧
    intersectKernelKernel (OctreeKernel.mk (.leaf ⟨⟨0, 0, 0⟩, ⟨1, 1, 1⟩⟩ []))
      (.octree (OctreeKernel.mk (.leaf ⟨⟨5, 5, 5⟩, ⟨6, 6, 6⟩⟩ []))) = ([], []) :=
  ⟨by decide,
   (k2k_disjoint_empty (OctreeKernel.mk (.leaf ⟨⟨0, 0, 0⟩, ⟨1, 1, 1⟩⟩ []))
     (OctreeKernel.mk (.leaf ⟨⟨5, 5, 5⟩, ⟨6, 6, 6⟩⟩ [])) (by decide)).1⟩

/-- C9 witness: 34 call frames suffice for an insertion at depth 0. -/
theorem insertTriangle_depth_bounded_witness :
    0 < 34 ∧ MAX_DEPTH + 2 ≤ 0 + 34 ∧
    insertTriangleFuel 34 (.leaf ⟨⟨0, 0, 0⟩, ⟨1, 1, 1⟩⟩ [])
        ⟨0, 0, ⟨0, 0, 0⟩, ⟨1, 0, 0⟩, ⟨0, 1, 0⟩, ⟨0, 0, 1⟩⟩ 0
      = some (insertTriangle (.leaf ⟨⟨0, 0, 0⟩, ⟨1, 1, 1⟩⟩ [])
          ⟨0, 0, ⟨0, 0, 0⟩, ⟨1, 0, 0⟩, ⟨0, 1, 0⟩, ⟨0, 0, 1⟩⟩ 0) :=
  ⟨by decide, by decide,
   insertTriangle_depth_bounded 34 (.leaf ⟨⟨0, 0, 0⟩, ⟨1, 1, 1⟩⟩ [])
     ⟨0, 0, ⟨0, 0, 0⟩, ⟨1, 0, 0⟩, ⟨0, 1, 0⟩, ⟨0, 0, 1⟩⟩ 0 (by decide) (by decide)⟩

/-- C2 witness: a leaf with spare capacity at depth 0 appends the incoming
triangle. -/
theorem insertTriangle_behaviour_witness :
    ¬ MAX_DEPTH < 0 ∧
    (OctreeNode.leaf ⟨⟨0, 0, 0⟩, ⟨1, 1, 1⟩⟩ []).isLeaf = true ∧
    (OctreeNode.leaf ⟨⟨0, 0, 0⟩, ⟨1, 1, 1⟩⟩ []).triangles.length < MAX_TRIANGLES_PER_NODE ∧
    (insertTriangle (.leaf ⟨⟨0, 0, 0⟩, ⟨1, 1, 1⟩⟩ [])
        ⟨0, 0, ⟨0, 0, 0⟩, ⟨1, 0, 0⟩, ⟨0, 1, 0⟩, ⟨0, 0, 1⟩⟩ 0).triangles
      = (OctreeNode.leaf ⟨⟨0, 0, 0⟩, ⟨1, 1, 1⟩⟩ []).triangles
          ++ [⟨0, 0, ⟨0, 0, 0⟩, ⟨1, 0, 0⟩, ⟨0, 1, 0⟩, ⟨0, 0, 1⟩⟩] :=
  ⟨by decide, rfl, by decide,
   ((insertTriangle_behaviour (.leaf ⟨⟨0, 0, 0⟩, ⟨1, 1, 1⟩⟩ [])
       ⟨0, 0, ⟨0, 0, 0⟩, ⟨1, 0, 0⟩, ⟨0, 1, 0⟩, ⟨0, 0, 1⟩⟩ 0).2.1
       (by decide) rfl (by decide)).1⟩

/-- C3 witness: splitting a node empties its own triangle list and creates
leaf children. -/
theorem splitNode_distribution_witness :
    (0 : Nat) < 8 ∧
    (splitNode (.leaf ⟨⟨0, 0, 0⟩, ⟨2, 2, 2⟩⟩ [])).triangles = [] ∧
    ((splitNode (.leaf ⟨⟨0, 0, 0⟩, ⟨2, 2, 2⟩⟩ [])).children.getD 0 default).children = [] :=
  ⟨by decide, (splitNode_distribution (.leaf ⟨⟨0, 0, 0⟩, ⟨2, 2, 2⟩⟩ [])).1,
   ((splitNode_distribution (.leaf ⟨⟨0, 0, 0⟩, ⟨2, 2, 2⟩⟩ [])).2.2.2.1 0 (by decide)).2.1⟩

/-- C1 witness: the pair emitted for two overlapping leaf roots consists of
two leaves with intersecting boxes. -/
theorem k2k_pairs_leaf_only_witness :
    (OctreeNode.leaf ⟨⟨0, 0, 0⟩, ⟨1, 1, 1⟩⟩ []).isLeaf = true ∧
    (OctreeNode.leaf ⟨⟨0, 0, 0⟩, ⟨1, 1, 1⟩⟩ []).boundingBox.intersects
      (OctreeNode.leaf ⟨⟨0, 0, 0⟩, ⟨1, 1, 1⟩⟩ []).boundingBox = true := by
  have h := (k2k_pairs_leaf_only (OctreeKernel.mk (.leaf ⟨⟨0, 0, 0⟩, ⟨1, 1, 1⟩⟩ []))
      (OctreeKernel.mk (.leaf ⟨⟨0, 0, 0⟩, ⟨1, 1, 1⟩⟩ []))).1
    ((OctreeNode.leaf ⟨⟨0, 0, 0⟩, ⟨1, 1, 1⟩⟩ [], OctreeNode.leaf ⟨⟨0, 0, 0⟩, ⟨1, 1, 1⟩⟩ []))
    (by rw [intersectOctreeNodesRecursive_unfold, if_pos (by decide), if_pos (by decide)]
        exact List.mem_singleton.mpr rfl)
  exact ⟨h.1, h.2.2⟩
